import Mathlib

/-!
Shallow embedding of the in-memory mock relay engine (`src/relay.cjs`):
the event store with replaceable-event supersession, the filter predicate,
the REQ backlog replay, and the broadcast paths of `inject` and of the
transport `EVENT` verb.  JavaScript peculiarities are modelled explicitly:
a missing object field is `Option.none`, string/number truthiness is spelled
out where the source relies on it, and the insertion-ordered `Map` of events
is an association list.
-/

namespace AgentTestKit

/-- An event as `relay.cjs` consumes it.  `kind` is `Option Int` because the
source never guarantees the field is present (the validity check in
`handleMessage` is supposed to, see `kindCheckJs`); `created_at` is an
integer count of seconds. -/
structure Event where
  id : String
  pubkey : String
  kind : Option Int
  created_at : Int
  tags : List (List String)
  content : String
deriving DecidableEq, Repr

/-- A NIP-01 filter object.  Absent fields are `none`.  `untilTs` is the source's
`until` field, renamed because `until` is reserved in Lean.  The `tags`
component collects the remaining object keys (`'#e'`, `'#p'`, ... in the source these
are found by iterating `Object.entries(filter)`), each with its value list. -/
structure Filter where
  ids : Option (List String)
  authors : Option (List String)
  kinds : Option (List Int)
  since : Option Int
  untilTs : Option Int
  limit : Option Int
  tags : List (String × List String)
deriving DecidableEq, Repr

/-- `key.startsWith('#') && key.length === 2` selects two-character keys
beginning with `'#'`; the tag name is `key[1]`. -/
def tagKeyName (k : String) : Option String :=
  match k.data with
  | ['#', c] => some (String.mk [c])
  | _ => none

/-- `event.tags.filter(t => t[0] === tagName).map(t => t[1])`: the second
elements (possibly absent, i.e. `undefined`) of the event's tags named `nm`. -/
def eventTagValues (e : Event) (nm : String) : List (Option String) :=
  (e.tags.filter (fun t => t.head? == some nm)).map (fun t => t.get? 1)

/-- One pass of the tag-filter loop body for the entry `(k, vs)`:
keys that are not two characters starting with `'#'` are skipped, i.e.
vacuously satisfied. -/
def tagEntryOk (e : Event) (k : String) (vs : List String) : Bool :=
  match tagKeyName k with
  | none => true
  | some nm => vs.any (fun v => (eventTagValues e nm).contains (some v))

/-- `matchesFilter(event, filter)` from `relay.cjs`.  The `since`/`until`
guards follow the source's `if (filter.since && ...)`: a bound equal to `0`
is falsy in JavaScript, so it is not enforced. -/
def matchesFilter (e : Event) (f : Filter) : Bool :=
  (match f.ids with | some l => l.contains e.id | none => true) &&
  (match f.authors with | some l => l.contains e.pubkey | none => true) &&
  (match f.kinds with
   | some l => (match e.kind with | some k => l.contains k | none => false)
   | none => true) &&
  (match f.since with | some s => s == 0 || decide (s ≤ e.created_at) | none => true) &&
  (match f.untilTs with | some u => u == 0 || decide (e.created_at ≤ u) | none => true) &&
  f.tags.all (fun p => tagEntryOk e p.1 p.2)

/-- `matchesFilters(event, filters)`: OR over the filter list. -/
def matchesFilters (e : Event) (fs : List Filter) : Bool :=
  fs.any (fun f => matchesFilter e f)

/-- `dTag ? dTag[1] : ''` with the JavaScript template-literal quirk: a found
`d` tag with no second element renders `undefined` into the key string. -/
def dTagValue (e : Event) : String :=
  match e.tags.find? (fun t => t.head? == some "d") with
  | none => ""
  | some t =>
    match t.get? 1 with
    | some v => v
    | none => "undefined"

/-- `replaceableKey(event)`: parameterized-replaceable kinds 30000-39999 get
`kind:pubkey:dTag`, replaceable kinds 0, 3, 10000-19999 get `kind:pubkey`,
everything else (including an absent kind, on which every comparison is
false in JavaScript) gets no key. -/
def replaceableKey (e : Event) : Option String :=
  match e.kind with
  | none => none
  | some k =>
    if 30000 ≤ k ∧ k < 40000 then
      some (toString k ++ ":" ++ e.pubkey ++ ":" ++ dTagValue e)
    else if k = 0 ∨ k = 3 ∨ (10000 ≤ k ∧ k < 20000) then
      some (toString k ++ ":" ++ e.pubkey)
    else none

/-- The event store: the insertion-ordered `Map` `id → event` as an
association list. -/
abbrev Store := List (String × Event)

/-- `storeEvent(event)`: first the supersession sweep (delete every stored
event sharing the replaceable key whose `created_at` is `≤` the incoming
one's), then the duplicate-id check, then insertion at the end. -/
def storeEvent (es : Store) (e : Event) : Bool × Store :=
  let es1 :=
    match replaceableKey e with
    | none => es
    | some rk =>
      es.filter (fun p =>
        !(replaceableKey p.2 == some rk && decide (p.2.created_at ≤ e.created_at)))
  if es1.any (fun p => p.1 == e.id) then (false, es1)
  else (true, es1 ++ [(e.id, e)])

/-- `getEvents(filter)`: all stored events in insertion order, optionally
filtered. -/
def getEvents (es : Store) (f : Option Filter) : List Event :=
  match f with
  | none => es.map Prod.snd
  | some f => (es.map Prod.snd).filter (fun e => matchesFilter e f)

/-- A protocol message sent back over a connection. -/
inductive Msg where
  | event : String → Event → Msg
  | eose : String → Msg
  | ok : String → Bool → String → Msg
  | notice : String → Msg
deriving DecidableEq, Repr

/-- One WebSocket client as the relay sees it: whether its transport can
still accept a `send` (a send to a gone transport throws), and its entry in
the `subscriptions` map, `subId → filters`. -/
structure Conn where
  alive : Bool
  subs : List (String × List Filter)
deriving DecidableEq, Repr

/-- The mutable relay state the claims are about: the `events` map and the
`subscriptions` map (connections in insertion order, identified below by
their position). -/
structure RelayState where
  events : Store
  conns : List Conn
deriving DecidableEq, Repr

/-- `clear()`: `events.clear()` — the store only. -/
def clear (st : RelayState) : RelayState :=
  ⟨[], st.conns⟩

/-- The subscription ids of `c` whose filter list matches `e` — the inner
loop of both broadcast passes. -/
def connMatchingSubs (c : Conn) (e : Event) : List String :=
  (c.subs.filter (fun s => matchesFilters e s.2)).map Prod.fst

/-- The broadcast loop of `inject`: every send is wrapped in
`try { ... } catch (e) { /* client disconnected */ }`, so a dead connection
loses its own deliveries and nothing else.  Deliveries are reported as
(connection index, subscription id). -/
def broadcastInjectGo (e : Event) : Nat → List Conn → List (Nat × String)
  | _, [] => []
  | i, c :: rest =>
    (if c.alive then (connMatchingSubs c e).map (fun sid => (i, sid)) else []) ++
      broadcastInjectGo e (i + 1) rest

/-- The broadcast loop of the transport `EVENT` branch of `handleMessage`:
`subWs.send` is not guarded, so the first send that throws aborts the whole
fan-out.  Returns the deliveries that happened and whether the loop ran to
completion. -/
def broadcastEvtGo (e : Event) : Nat → List Conn → List (Nat × String) × Bool
  | _, [] => ([], true)
  | i, c :: rest =>
    if c.alive then
      let done := broadcastEvtGo e (i + 1) rest
      ((connMatchingSubs c e).map (fun sid => (i, sid)) ++ done.1, done.2)
    else if (connMatchingSubs c e).isEmpty then broadcastEvtGo e (i + 1) rest
    else ([], false)

/-- Models the third disjunct of the validity check,
`!event.kind === undefined`: it parses as `(!event.kind) === undefined`, a
boolean compared against `undefined`, which is false for every event. -/
def kindCheckJs (_e : Event) : Bool :=
  false

/-- The validity test of the `EVENT` branch:
`!event || !event.id || !event.pubkey || !event.kind === undefined` with
string truthiness (an absent field and the empty string are both falsy). -/
def invalidJs (e : Event) : Bool :=
  e.id == "" || e.pubkey == "" || kindCheckJs e

/-- The `EVENT` branch of `handleMessage`: reject invalid events with a
negative `OK`; otherwise store, acknowledge `['OK', id, true, '']`
unconditionally, and broadcast only when the event was new.  Result: new
state, the acknowledgment sent to the submitter, and the deliveries made. -/
def handleEventMsg (st : RelayState) (e : Event) : RelayState × Msg × List (Nat × String) :=
  if invalidJs e then (st, Msg.ok e.id false "Invalid event", [])
  else
    let r := storeEvent st.events e
    (⟨r.2, st.conns⟩, Msg.ok e.id true "",
      if r.1 then (broadcastEvtGo e 0 st.conns).1 else [])

/-- `inject(event)`: store, broadcast with per-send try/catch when new, and
return `isNew`. -/
def inject (st : RelayState) (e : Event) : Bool × RelayState × List (Nat × String) :=
  let r := storeEvent st.events e
  (r.1, ⟨r.2, st.conns⟩, if r.1 then broadcastInjectGo e 0 st.conns else [])

/-- `f.limit || Infinity`: a falsy limit (absent or `0`) contributes
`Infinity`, modelled as `none`. -/
def jsLimit (f : Filter) : Option Int :=
  match f.limit with
  | some l => if l = 0 then none else some l
  | none => none

/-- `Math.max` on integers extended with `Infinity`, `none` as `Infinity`. -/
def maxInf : Option Int → Option Int → Option Int
  | none, _ => none
  | _, none => none
  | some a, some b => some (max a b)

/-- `filters.reduce((max, f) => Math.max(max, f.limit || Infinity), 0)`. -/
def reqLimit (filters : List Filter) : Option Int :=
  filters.foldl (fun acc f => maxInf acc (jsLimit f)) (some 0)

/-- `limit !== Infinity && count >= limit`. -/
def limitHit : Option Int → Int → Bool
  | none, _ => false
  | some l, c => decide (l ≤ c)

/-- Stable insertion of an event into a newest-first list: the incoming
event goes after every earlier event with the same or a greater
`created_at`, matching the stable `Array.prototype.sort` with comparator
`(a, b) => b.created_at - a.created_at`. -/
def insertDesc (e : Event) : List Event → List Event
  | [] => [e]
  | x :: xs =>
    if x.created_at < e.created_at then e :: x :: xs
    else x :: insertDesc e xs

/-- The sorted snapshot `Array.from(events.values()).sort(...)`. -/
def sortDesc (xs : List Event) : List Event :=
  xs.foldl (fun acc e => insertDesc e acc) []

/-- The replay loop of the `REQ` branch: send each matching event, count it,
and break once `count >= limit` (checked after the send). -/
def replayLoop (subId : String) (filters : List Filter) (lim : Option Int) :
    List Event → Int → List Msg
  | [], _ => []
  | e :: rest, count =>
    if matchesFilters e filters then
      Msg.event subId e ::
        (if limitHit lim (count + 1) then []
         else replayLoop subId filters lim rest (count + 1))
    else replayLoop subId filters lim rest count

/-- The messages the `REQ` branch sends back to the requesting connection:
the backlog replay followed by the single `EOSE`. -/
def handleReqMsgs (es : Store) (subId : String) (filters : List Filter) : List Msg :=
  replayLoop subId filters (reqLimit filters) (sortDesc (es.map Prod.snd)) 0 ++
    [Msg.eose subId]

/-- The registration upsert of the `REQ` branch,
`subscriptions.get(ws).set(subId, filters)`: an existing subscription id
keeps its position and gets the new filter list, a new one is appended. -/
def registerSub (subs : List (String × List Filter)) (subId : String)
    (filters : List Filter) : List (String × List Filter) :=
  if subs.any (fun s => s.1 == subId) then
    subs.map (fun s => if s.1 == subId then (subId, filters) else s)
  else subs ++ [(subId, filters)]

/-- A filter constraining only the timestamp bounds. -/
def boundsOnly (s u : Option Int) : Filter := ⟨none, none, none, s, u, none, []⟩

/-- A filter with tag constraints only. -/
def tagOnly (ts : List (String × List String)) : Filter :=
  ⟨none, none, none, none, none, none, ts⟩

/-- An event carrying a `p` tag with value `X` and an `e` tag with value `Y`. -/
def evTagged (X Y : String) : Event := ⟨"t", "p", some 1, 1, [["p", X], ["e", Y]], ""⟩

/-- Truncation by the computed replay cap: `none` is `Infinity` (no cap). -/
def takeLim : Option Int → List Event → List Event
  | none, xs => xs
  | some l, xs => xs.take l.toNat

/-! Concrete fixtures used by the counterexamples and witnesses. -/

/-- Parameterized-replaceable event, `createdAt = 1000`. -/
def e1c : Event := ⟨"i1", "p", some 30000, 1000, [["d", "t"]], ""⟩

/-- Parameterized-replaceable event sharing `e1c`'s key, `createdAt = 2000`. -/
def e2c : Event := ⟨"i2", "p", some 30000, 2000, [["d", "t"]], ""⟩

/-- A query restricted to the replaceable key shared by `e1c` and `e2c`. -/
def keyFilterC1 : Filter := ⟨none, some ["p"], some [30000], none, none, none, [("#d", ["t"])]⟩

/-- A replaceable (kind 0) event. -/
def e0c : Event := ⟨"i0", "p", some 0, 100, [], ""⟩

/-- A second replaceable (kind 0) event sharing `e0c`'s key, older
(`createdAt = 50`). -/
def eBc : Event := ⟨"ib", "p", some 0, 50, [], ""⟩

/-- A regular (kind 1) event: no replaceable key. -/
def eReg : Event := ⟨"r1", "p", some 1, 100, [], ""⟩

/-- An event with a falsy (empty) id: fails the validity check. -/
def evBad : Event := ⟨"", "p", some 1, 1, [], ""⟩

/-- An event missing its `kind` field entirely. -/
def evNoKind : Event := ⟨"a", "b", none, 1, [], ""⟩

/-- A kind-1 event with `createdAt = 5`. -/
def evK1 : Event := ⟨"ia", "p", some 1, 5, [], ""⟩

/-- A filter declaring `limit: 0`. -/
def fL0 : Filter := ⟨none, none, some [1], none, none, some 0, []⟩

/-- A filter declaring `limit: 2`. -/
def fK2 : Filter := ⟨none, none, some [1], none, none, some 2, []⟩

/-- A kind-1 event with `createdAt = 5`. -/
def evC6 : Event := ⟨"ic", "p", some 1, 5, [], ""⟩

/-- A filter declaring `until: 0`. -/
def fU0 : Filter := ⟨none, none, none, none, some 0, none, []⟩

/-- The unconstrained filter: matches every event. -/
def filterNone : Filter := ⟨none, none, none, none, none, none, []⟩

/-- A connection whose transport is gone, holding subscription `a`. -/
def cDead : Conn := ⟨false, [("a", [filterNone])]⟩

/-- A live connection holding subscription `b`. -/
def cLive : Conn := ⟨true, [("b", [filterNone])]⟩

/-! Helper lemmas about the filter predicate. -/

lemma tagKeyName_eq_none (k : String) (h : k.data.length ≠ 2) : tagKeyName k = none := by
  unfold tagKeyName
  split
  · rename_i c heq
    exact absurd (by simp [heq]) h
  · rfl

lemma length_filter_lt_of_mem_not {α : Type} (p : α → Bool) :
    ∀ (l : List α) (a : α), a ∈ l → p a = false → (l.filter p).length < l.length := by
  intro l
  induction l with
  | nil => intro a ha _; simp at ha
  | cons x xs ih =>
    intro a ha hpa
    rcases List.mem_cons.mp ha with rfl | ha
    · rw [List.filter_cons, hpa]
      simpa using Nat.lt_succ_of_le (List.length_filter_le p xs)
    · rw [List.filter_cons]
      by_cases hx : p x
      · simpa [hx] using ih a ha hpa
      · simp only [hx, Bool.false_eq_true, if_false, List.length_cons]
        exact Nat.lt_succ_of_lt (ih a ha hpa)

lemma tagEntryOk_eq_true_iff (e : Event) (k nm : String) (vs : List String)
    (h : tagKeyName k = some nm) :
    tagEntryOk e k vs = true ↔
      ∃ t ∈ e.tags, t.head? = some nm ∧ ∃ v ∈ vs, t.get? 1 = some v := by
  simp [tagEntryOk, h, eventTagValues, List.any_eq_true, List.mem_map, List.mem_filter]
  aesop

/-! Helper lemmas about the newest-first sort. -/

lemma insertDesc_perm (e : Event) (xs : List Event) :
    List.Perm (insertDesc e xs) (e :: xs) := by
  induction xs with
  | nil => simp [insertDesc]
  | cons x xs ih =>
    unfold insertDesc
    by_cases h : x.created_at < e.created_at
    · simp [h]
    · simp only [if_neg h]
      exact (List.Perm.cons x ih).trans (List.Perm.swap e x xs)

lemma mem_insertDesc {y e : Event} {xs : List Event} :
    y ∈ insertDesc e xs ↔ y = e ∨ y ∈ xs := by
  rw [(insertDesc_perm e xs).mem_iff]
  simp

lemma foldl_insertDesc_perm (xs : List Event) :
    ∀ acc : List Event,
      List.Perm (xs.foldl (fun acc e => insertDesc e acc) acc) (xs ++ acc) := by
  induction xs with
  | nil => intro acc; simp
  | cons e xs ih =>
    intro acc
    simp only [List.foldl_cons]
    refine (ih (insertDesc e acc)).trans ?_
    have h1 : List.Perm (xs ++ insertDesc e acc) (xs ++ (e :: acc)) :=
      List.Perm.append_left xs (insertDesc_perm e acc)
    have h2 : List.Perm (xs ++ (e :: acc)) (e :: (xs ++ acc)) := List.perm_middle
    exact h1.trans h2

lemma sortDesc_perm (xs : List Event) : List.Perm (sortDesc xs) xs := by
  simpa using foldl_insertDesc_perm xs []

lemma insertDesc_pairwise (e : Event) (xs : List Event)
    (h : xs.Pairwise (fun a b => b.created_at ≤ a.created_at)) :
    (insertDesc e xs).Pairwise (fun a b => b.created_at ≤ a.created_at) := by
  induction xs with
  | nil => simp [insertDesc]
  | cons x xs ih =>
    rcases List.pairwise_cons.mp h with ⟨hx, hxs⟩
    unfold insertDesc
    by_cases hlt : x.created_at < e.created_at
    · simp only [if_pos hlt]
      refine List.pairwise_cons.mpr ⟨?_, h⟩
      intro y hy
      rcases List.mem_cons.mp hy with rfl | hy
      · exact le_of_lt hlt
      · exact le_trans (hx y hy) (le_of_lt hlt)
    · simp only [if_neg hlt]
      refine List.pairwise_cons.mpr ⟨?_, ih hxs⟩
      intro y hy
      rcases mem_insertDesc.mp hy with rfl | hy
      · exact le_of_not_lt hlt
      · exact hx y hy

lemma sortDesc_pairwise (xs : List Event) :
    (sortDesc xs).Pairwise (fun a b => b.created_at ≤ a.created_at) := by
  have aux : ∀ (l acc : List Event),
      acc.Pairwise (fun a b => b.created_at ≤ a.created_at) →
      (l.foldl (fun acc e => insertDesc e acc) acc).Pairwise
        (fun a b => b.created_at ≤ a.created_at) := by
    intro l
    induction l with
    | nil => intro acc h; simpa using h
    | cons e l ih =>
      intro acc h
      simp only [List.foldl_cons]
      exact ih _ (insertDesc_pairwise e acc h)
  simpa using aux xs [] (by simp)

/-! Helper lemmas about the replay cap fold and the replay loop. -/

lemma maxInf_none_right (a : Option Int) : maxInf a none = none := by
  cases a <;> rfl

lemma maxInf_some_some (a b : Int) : maxInf (some a) (some b) = some (max a b) := rfl

lemma foldl_maxInf_none (fs : List Filter) :
    fs.foldl (fun acc f => maxInf acc (jsLimit f)) none = none := by
  induction fs with
  | nil => rfl
  | cons f fs ih => simpa [maxInf] using ih

lemma foldl_maxInf_mono (fs : List Filter) :
    ∀ a b : Int, fs.foldl (fun acc f => maxInf acc (jsLimit f)) (some a) = some b → a ≤ b := by
  induction fs with
  | nil =>
    intro a b h
    simp at h
    omega
  | cons f fs ih =>
    intro a b h
    rw [List.foldl_cons] at h
    cases hj : jsLimit f with
    | none =>
      rw [hj, maxInf_none_right, foldl_maxInf_none] at h
      exact absurd h (by simp)
    | some l =>
      rw [hj, maxInf_some_some] at h
      have := ih (max a l) b h
      omega

lemma jsLimit_cases (f : Filter) (hf : ∀ l, f.limit = some l → 0 ≤ l) :
    jsLimit f = none ∨ ∃ l, 0 < l ∧ jsLimit f = some l := by
  cases h : f.limit with
  | none => left; simp [jsLimit, h]
  | some l =>
    by_cases hl : l = 0
    · left; simp [jsLimit, h, hl]
    · right
      exact ⟨l, by have := hf l h; omega, by simp [jsLimit, h, hl]⟩

lemma reqLimit_spec (filters : List Filter)
    (hL : ∀ f ∈ filters, ∀ l, f.limit = some l → 0 ≤ l) :
    reqLimit filters = none ∨ (∃ l, 0 < l ∧ reqLimit filters = some l) ∨ filters = [] := by
  cases filters with
  | nil => right; right; rfl
  | cons f fs =>
    rcases jsLimit_cases f (hL f (by simp)) with hj | ⟨l, hl, hj⟩
    · left
      unfold reqLimit
      rw [List.foldl_cons, hj, maxInf_none_right]
      exact foldl_maxInf_none fs
    · unfold reqLimit
      rw [List.foldl_cons, hj, maxInf_some_some]
      cases hres : fs.foldl (fun acc f => maxInf acc (jsLimit f)) (some (max 0 l)) with
      | none => left; rfl
      | some b =>
        right; left
        refine ⟨b, ?_, rfl⟩
        have := foldl_maxInf_mono fs (max 0 l) b hres
        omega

lemma replayLoop_none (subId : String) (filters : List Filter) :
    ∀ (xs : List Event) (c : Int),
      replayLoop subId filters none xs c =
        (xs.filter (fun e => matchesFilters e filters)).map (Msg.event subId) := by
  intro xs
  induction xs with
  | nil => intro c; rfl
  | cons e rest ih =>
    intro c
    by_cases h : matchesFilters e filters
    · simp [replayLoop, h, limitHit, ih]
    · simp [replayLoop, h, ih c]

lemma replayLoop_some (subId : String) (filters : List Filter) (l : Int) :
    ∀ (xs : List Event) (c : Int), c < l →
      replayLoop subId filters (some l) xs c =
        ((xs.filter (fun e => matchesFilters e filters)).take (l - c).toNat).map
          (Msg.event subId) := by
  intro xs
  induction xs with
  | nil => intro c _; simp [replayLoop]
  | cons e rest ih =>
    intro c hc
    by_cases h : matchesFilters e filters
    · by_cases hstop : l ≤ c + 1
      · have hone : (l - c).toNat = 1 := by omega
        simp [replayLoop, h, limitHit, hstop, hone]
      · have hsplit : (l - c).toNat = (l - (c + 1)).toNat + 1 := by omega
        have hrec := ih (c + 1) (by omega)
        simp [replayLoop, h, limitHit, hstop, hsplit, hrec]
    · simp [replayLoop, h, ih c hc]

lemma replayLoop_nil_filters (subId : String) :
    ∀ (xs : List Event) (lim : Option Int) (c : Int),
      replayLoop subId [] lim xs c = [] := by
  intro xs
  induction xs with
  | nil => intro lim c; rfl
  | cons e rest ih => intro lim c; simp [replayLoop, matchesFilters, ih]

/-! Helper lemmas about the two broadcast loops. -/

lemma broadcastInjectGo_index_lb (e : Event) :
    ∀ (conns : List Conn) (i k : Nat) (sid : String),
      (k, sid) ∈ broadcastInjectGo e i conns → i ≤ k := by
  intro conns
  induction conns with
  | nil => intro i k sid h; simp [broadcastInjectGo] at h
  | cons c rest ih =>
    intro i k sid h
    rw [broadcastInjectGo, List.mem_append] at h
    rcases h with h | h
    · by_cases hc : c.alive
      · rw [if_pos hc] at h
        rcases List.mem_map.mp h with ⟨sid2, _, heq⟩
        have : i = k := congrArg Prod.fst heq
        omega
      · rw [if_neg hc] at h
        simp at h
    · have := ih (i + 1) k sid h
      omega

lemma broadcastInjectGo_mem (e : Event) :
    ∀ (conns : List Conn) (i j : Nat) (sid : String),
      ((i + j, sid) ∈ broadcastInjectGo e i conns ↔
        ∃ c, conns[j]? = some c ∧ c.alive = true ∧ sid ∈ connMatchingSubs c e) := by
  intro conns
  induction conns with
  | nil => intro i j sid; simp [broadcastInjectGo]
  | cons c rest ih =>
    intro i j sid
    cases j with
    | zero =>
      rw [broadcastInjectGo, List.mem_append]
      simp only [Nat.add_zero, List.getElem?_cons_zero, Option.some.injEq]
      constructor
      · intro h
        rcases h with h | h
        · by_cases hc : c.alive
          · rw [if_pos hc] at h
            rcases List.mem_map.mp h with ⟨sid2, hmem, heq⟩
            have hs : sid2 = sid := congrArg Prod.snd heq
            subst hs
            exact ⟨c, rfl, hc, hmem⟩
          · rw [if_neg hc] at h
            simp at h
        · have := broadcastInjectGo_index_lb e rest (i + 1) i sid h
          omega
      · rintro ⟨c2, rfl, hal, hmem⟩
        left
        rw [if_pos hal]
        exact List.mem_map.mpr ⟨sid, hmem, rfl⟩
    | succ j =>
      have hidx : i + (j + 1) = (i + 1) + j := by omega
      rw [broadcastInjectGo, List.mem_append, hidx]
      simp only [List.getElem?_cons_succ]
      rw [← ih (i + 1) j sid]
      constructor
      · intro h
        rcases h with h | h
        · by_cases hc : c.alive
          · rw [if_pos hc] at h
            rcases List.mem_map.mp h with ⟨sid2, _, heq⟩
            have : i = (i + 1) + j := congrArg Prod.fst heq
            omega
          · rw [if_neg hc] at h
            simp at h
        · exact h
      · intro h
        right
        exact h

lemma broadcastEvtGo_all_alive (e : Event) :
    ∀ (conns : List Conn) (i : Nat), (∀ c ∈ conns, c.alive = true) →
      broadcastEvtGo e i conns = (broadcastInjectGo e i conns, true) := by
  intro conns
  induction conns with
  | nil => intro i _; rfl
  | cons c rest ih =>
    intro i h
    have hc : c.alive = true := h c (by simp)
    rw [broadcastEvtGo, broadcastInjectGo, if_pos hc, if_pos hc,
      ih (i + 1) (fun c2 hc2 => h c2 (by simp [hc2]))]

/-- Claim C1, counterexample: `e1c` (createdAt 1000) and `e2c` (createdAt 2000)
share a parameterized-replaceable key, yet submitting them in the order `e2c`
then `e1c` leaves both stored, and the query restricted to that key returns
`[e2c, e1c]`, not exactly `[e2c]`.  The eviction sweep only removes same-key
events with `created_at ≤` the incoming one's, so an older event arriving
after a newer one is kept alongside it. -/
theorem C1_counterexample :
    replaceableKey e1c = replaceableKey e2c ∧ (replaceableKey e1c).isSome = true ∧
    getEvents (storeEvent (storeEvent [] e2c).2 e1c).2 (some keyFilterC1) = [e2c, e1c] ∧
    ([e2c, e1c] : List Event) ≠ [e2c] := by decide

/-- Claim C1, amended: for two events sharing a replaceable key with
`e1.created_at < e2.created_at`, submitting `e1` then `e2` leaves the store
holding exactly `e2` (the newer event evicts the older), while submitting
`e2` then `e1` leaves both stored; the at-most-one-per-key invariant
therefore holds only for nondecreasing `createdAt` arrival order. -/
theorem C1_amended (e1 e2 : Event) (rk : String)
    (h1 : replaceableKey e1 = some rk) (h2 : replaceableKey e2 = some rk)
    (hlt : e1.created_at < e2.created_at) (hid : e1.id ≠ e2.id) :
    (storeEvent (storeEvent [] e1).2 e2).2 = [(e2.id, e2)] ∧
    (storeEvent (storeEvent [] e2).2 e1).2 = [(e2.id, e2), (e1.id, e1)] := by
  have hle : decide (e1.created_at ≤ e2.created_at) = true := by simp [hlt.le]
  have hnle : decide (e2.created_at ≤ e1.created_at) = false := by simp; omega
  constructor
  · simp [storeEvent, h1, h2, hle]
  · simp [storeEvent, h1, h2, hnle, hid, Ne.symm hid]

/-- Claim C1, witness: the amended statement evaluated at `e1c`, `e2c`. -/
theorem C1_witness :
    (storeEvent (storeEvent [] e1c).2 e2c).2 = [(e2c.id, e2c)] ∧
    (storeEvent (storeEvent [] e2c).2 e1c).2 = [(e2c.id, e2c), (e1c.id, e1c)] :=
  C1_amended e1c e2c "30000:p:t" (by decide) (by decide) (by decide) (by decide)

/-- Claim C2, counterexample: resubmitting the already-stored replaceable
event `e0c` (kind 0) returns `true`, not `false` — the eviction sweep runs
before the duplicate check, deletes the stored copy (its key matches and its
`created_at` is `≤` itself), and the event is re-inserted as new. -/
theorem C2_counterexample :
    replaceableKey e0c = some "0:p" ∧
    storeEvent [(e0c.id, e0c)] e0c = (true, [(e0c.id, e0c)]) := by decide

/-- Claim C2, amended: submitting an already-stored event never duplicates
it — afterwards exactly one stored entry carries its id.  For an event with
no replaceable key the call is a true no-op returning `false` with the store
unchanged.  For a replaceable event the call returns `true`: the eviction
sweep, which runs before the duplicate check, deletes every same-key event
with `created_at ≤` the resubmitted one's — its own stored copy and possibly
other same-key events — and re-inserts it, so the store never grows but the
`query()` length can strictly decrease (third conjunct: a store of two
same-key events shrinks to one). -/
theorem C2_amended :
    (∀ (es : Store) (e : Event), replaceableKey e = none →
      es.any (fun p => p.1 == e.id) = true → storeEvent es e = (false, es)) ∧
    (∀ (es : Store) (e : Event) (rk : String), replaceableKey e = some rk →
      (e.id, e) ∈ es → (∀ p ∈ es, p.1 = e.id → p.2 = e) →
      (storeEvent es e).1 = true ∧
      (storeEvent es e).2.filter (fun p => p.1 == e.id) = [(e.id, e)] ∧
      (storeEvent es e).2.length ≤ es.length) ∧
    storeEvent [(e0c.id, e0c), (eBc.id, eBc)] e0c = (true, [(e0c.id, e0c)]) := by
  refine ⟨?_, ?_, by decide⟩
  · intro es e hrk hdup
    simp [storeEvent, hrk, hdup]
  · intro es e rk hrk hmem huniq
    have hnotin : ∀ p ∈ es.filter (fun p =>
        !(replaceableKey p.2 == some rk && decide (p.2.created_at ≤ e.created_at))),
        (p.1 == e.id) = false := by
      intro p hp
      rcases List.mem_filter.mp hp with ⟨hpes, hpk⟩
      cases hq : (p.1 == e.id) with
      | false => rfl
      | true =>
        have hid : p.1 = e.id := by simpa using hq
        have hpe : p.2 = e := huniq p hpes hid
        rw [hpe, hrk] at hpk
        simp at hpk
    have hstore : storeEvent es e = (true, es.filter (fun p =>
        !(replaceableKey p.2 == some rk && decide (p.2.created_at ≤ e.created_at))) ++
          [(e.id, e)]) := by
      simp only [storeEvent, hrk]
      simp
      intro x x1 hx hcond hxid
      have hx1 : x1 = e := huniq (x, x1) hx hxid
      rcases hcond with hc | hc
      · rw [hx1] at hc
        exact hc hrk
      · rw [hx1] at hc
        exact absurd hc (lt_irrefl _)
    refine ⟨by rw [hstore], ?_, ?_⟩
    · rw [hstore, List.filter_append]
      have h1 : (es.filter (fun p =>
          !(replaceableKey p.2 == some rk && decide (p.2.created_at ≤ e.created_at)))).filter
          (fun p => p.1 == e.id) = [] := by
        rw [List.filter_eq_nil_iff]
        intro p hp
        simp [hnotin p hp]
      rw [h1]
      simp
    · rw [hstore, List.length_append]
      have hlt : (es.filter (fun p =>
          !(replaceableKey p.2 == some rk && decide (p.2.created_at ≤ e.created_at)))).length <
          es.length :=
        length_filter_lt_of_mem_not _ es (e.id, e) hmem (by simp [hrk])
      simp only [List.length_cons, List.length_nil]
      omega

/-- Claim C2, witness: the amended statement at the regular event `eReg`
(duplicate refused with `false`, store unchanged) and at the two-event
same-key store `[e0c, eBc]`, where resubmitting `e0c` is re-accepted with
exactly one copy of it remaining and the store not growing. -/
theorem C2_witness :
    (storeEvent [("r1", eReg)] eReg = (false, [("r1", eReg)])) ∧
    ((storeEvent [(e0c.id, e0c), (eBc.id, eBc)] e0c).1 = true ∧
      (storeEvent [(e0c.id, e0c), (eBc.id, eBc)] e0c).2.filter
        (fun p => p.1 == e0c.id) = [(e0c.id, e0c)] ∧
      (storeEvent [(e0c.id, e0c), (eBc.id, eBc)] e0c).2.length ≤
        ([(e0c.id, e0c), (eBc.id, eBc)] : Store).length) :=
  ⟨C2_amended.1 [("r1", eReg)] eReg (by decide) (by decide),
   C2_amended.2.1 [(e0c.id, e0c), (eBc.id, eBc)] e0c "0:p" (by decide) (by decide)
     (by decide)⟩

/-- Claim C3, counterexample: submitting the already-stored event `eReg`
through the `EVENT` branch acknowledges with `accepted = true` even though
the store reports it as a duplicate — `handleMessage` sends
`['OK', id, true, '']` unconditionally after validation. -/
theorem C3_counterexample :
    (storeEvent [(eReg.id, eReg)] eReg).1 = false ∧
    (handleEventMsg ⟨[(eReg.id, eReg)], []⟩ eReg).2.1 = Msg.ok "r1" true "" := by decide

/-- Claim C3, amended: the acknowledgment carries `accepted = true` for every
event that passes the field validation, duplicates included (duplicate
status only suppresses the broadcast); `accepted = false` is sent exactly
for events failing validation. -/
theorem C3_amended (st : RelayState) (e : Event) :
    (invalidJs e = false → (handleEventMsg st e).2.1 = Msg.ok e.id true "") ∧
    (invalidJs e = true → (handleEventMsg st e).2.1 = Msg.ok e.id false "Invalid event") := by
  constructor <;> intro h <;> simp [handleEventMsg, h]

/-- Claim C3, witness: the amended statement at a valid event and at an
event with an empty id. -/
theorem C3_witness :
    (handleEventMsg ⟨[], []⟩ eReg).2.1 = Msg.ok eReg.id true "" ∧
    (handleEventMsg ⟨[], []⟩ evBad).2.1 = Msg.ok evBad.id false "Invalid event" :=
  ⟨(C3_amended ⟨[], []⟩ eReg).1 (by decide), (C3_amended ⟨[], []⟩ evBad).2 (by decide)⟩

/-- Claim C4, counterexample: a subscription whose single filter declares
`limit: 0` should, per the claim, replay at most 0 events; because
`f.limit || Infinity` treats `0` as falsy, the replay is unbounded and
delivers the stored matching event before the boundary marker. -/
theorem C4_counterexample :
    fL0.limit = some 0 ∧
    handleReqMsgs [(evK1.id, evK1)] "s" [fL0] = [Msg.event "s" evK1, Msg.eose "s"] ∧
    handleReqMsgs [(evK1.id, evK1)] "s" [fL0] ≠ [Msg.eose "s"] := by decide

/-- Claim C4, amended: for filters whose declared limits are nonnegative,
the `REQ` replay emits exactly the stored events matching the filter list,
ordered newest-first by `created_at` (a permutation of the store snapshot,
pairwise sorted), truncated to the cap computed by JavaScript truthiness —
a filter with an absent or zero limit makes the replay unbounded, otherwise
the cap is the largest declared limit — followed by exactly one `EOSE`. -/
theorem C4_amended (es : Store) (subId : String) (filters : List Filter)
    (hL : ∀ f ∈ filters, ∀ l, f.limit = some l → 0 ≤ l) :
    handleReqMsgs es subId filters =
      (takeLim (reqLimit filters)
        ((sortDesc (es.map Prod.snd)).filter (fun e => matchesFilters e filters))).map
          (Msg.event subId) ++ [Msg.eose subId] ∧
    (sortDesc (es.map Prod.snd)).Pairwise (fun a b => b.created_at ≤ a.created_at) ∧
    List.Perm (sortDesc (es.map Prod.snd)) (es.map Prod.snd) := by
  refine ⟨?_, sortDesc_pairwise _, sortDesc_perm _⟩
  unfold handleReqMsgs
  rcases reqLimit_spec filters hL with h | ⟨l, hl, h⟩ | h
  · rw [h, replayLoop_none, takeLim]
  · rw [h, replayLoop_some subId filters l _ 0 hl]
    simp [takeLim]
  · subst h
    simp [replayLoop_nil_filters, matchesFilters, takeLim, reqLimit]

/-- Claim C4, witness: the amended statement at a store of one matching
event and a filter with `limit: 2`. -/
theorem C4_witness :
    handleReqMsgs [(evK1.id, evK1)] "s" [fK2] =
      (takeLim (reqLimit [fK2])
        ((sortDesc ([(evK1.id, evK1)].map Prod.snd)).filter
          (fun e => matchesFilters e [fK2]))).map (Msg.event "s") ++ [Msg.eose "s"] ∧
    (sortDesc ([(evK1.id, evK1)].map Prod.snd)).Pairwise
      (fun a b => b.created_at ≤ a.created_at) ∧
    List.Perm (sortDesc ([(evK1.id, evK1)].map Prod.snd)) ([(evK1.id, evK1)].map Prod.snd) :=
  C4_amended [(evK1.id, evK1)] "s" [fK2] (by
    intro f hf l hl
    rw [List.mem_singleton] at hf
    subst hf
    simp [fK2] at hl
    omega)

/-- Claim C5, counterexample: with a dead connection ahead of a live one,
both subscribed to everything, an event submitted through the transport
`EVENT` branch is accepted and stored but delivered to nobody — the
unguarded `subWs.send` to the dead connection aborts the fan-out before the
live subscriber `b` is reached — while `inject`, whose sends are
individually guarded, delivers to `b`. -/
theorem C5_counterexample :
    cLive.alive = true ∧ matchesFilters eReg [filterNone] = true ∧
    (handleEventMsg ⟨[], [cDead, cLive]⟩ eReg).1.events = [(eReg.id, eReg)] ∧
    (handleEventMsg ⟨[], [cDead, cLive]⟩ eReg).2.2 = [] ∧
    (inject ⟨[], [cDead, cLive]⟩ eReg).2.2 = [(1, "b")] := by decide

/-- Claim C5, amended: failure isolation holds for `inject` — its boolean
result ignores subscribers entirely, and a subscription receives the event
exactly when its own connection is alive and its filters match, independent
of every other connection's state; the transport `EVENT` fan-out behaves
like `inject` only when every connection is alive (a dead one aborts the
remaining deliveries, as the counterexample shows). -/
theorem C5_amended :
    (∀ (st : RelayState) (e : Event), (inject st e).1 = (storeEvent st.events e).1) ∧
    (∀ (e : Event) (conns : List Conn) (i j : Nat) (sid : String),
      ((i + j, sid) ∈ broadcastInjectGo e i conns ↔
        ∃ c, conns[j]? = some c ∧ c.alive = true ∧ sid ∈ connMatchingSubs c e)) ∧
    (∀ (e : Event) (conns : List Conn) (i : Nat), (∀ c ∈ conns, c.alive = true) →
      broadcastEvtGo e i conns = (broadcastInjectGo e i conns, true)) :=
  ⟨fun _ _ => rfl, fun e conns i j sid => broadcastInjectGo_mem e conns i j sid,
    fun e conns i h => broadcastEvtGo_all_alive e conns i h⟩

/-- Claim C5, witness: the amended statement at the two-connection fixture
and at an all-alive connection list. -/
theorem C5_witness :
    (inject ⟨[], [cDead, cLive]⟩ eReg).1 = (storeEvent [] eReg).1 ∧
    ((0 + 1, "b") ∈ broadcastInjectGo eReg 0 [cDead, cLive] ↔
      ∃ c, [cDead, cLive][1]? = some c ∧ c.alive = true ∧ "b" ∈ connMatchingSubs c eReg) ∧
    broadcastEvtGo eReg 0 [cLive] = (broadcastInjectGo eReg 0 [cLive], true) :=
  ⟨C5_amended.1 ⟨[], [cDead, cLive]⟩ eReg, C5_amended.2.1 eReg [cDead, cLive] 0 1 "b",
    C5_amended.2.2 eReg [cLive] 0 (by decide)⟩

/-- Claim C6, counterexample: the filter `fU0` declares `until: 0`, yet the
event with `created_at = 5` matches it — `filter.until && ...` skips the
bound because `0` is falsy — contradicting the claim that a present `until`
bound admits only `created_at ≤ until`. -/
theorem C6_counterexample :
    fU0.untilTs = some 0 ∧ matchesFilter evC6 fU0 = true ∧ ¬(evC6.created_at ≤ 0) := by decide

/-- Claim C6, amended: a `since`/`until` bound that is present and nonzero
is enforced inclusively (a match implies `since ≤ created_at` and
`created_at ≤ until`); for a filter constraining only the bounds, matching
is exactly the conjunction of the two bounds with a zero bound vacuous; and
a filter with both bounds absent matches every event. -/
theorem C6_amended (e : Event) (f : Filter) (s u : Int) :
    (matchesFilter e f = true → ∀ s0, f.since = some s0 → s0 ≠ 0 → s0 ≤ e.created_at) ∧
    (matchesFilter e f = true → ∀ u0, f.untilTs = some u0 → u0 ≠ 0 → e.created_at ≤ u0) ∧
    (matchesFilter e (boundsOnly (some s) (some u)) = true ↔
      ((s = 0 ∨ s ≤ e.created_at) ∧ (u = 0 ∨ e.created_at ≤ u))) ∧
    matchesFilter e (boundsOnly none none) = true := by
  refine ⟨?_, ?_, ?_, ?_⟩
  · intro hm s0 hs0 hne
    rw [matchesFilter] at hm
    simp only [Bool.and_eq_true] at hm
    rcases hm with ⟨⟨⟨_, hsince⟩, _⟩, _⟩
    rw [hs0] at hsince
    simp at hsince
    rcases hsince with h | h
    · exact absurd h hne
    · exact h
  · intro hm u0 hu0 hne
    rw [matchesFilter] at hm
    simp only [Bool.and_eq_true] at hm
    rcases hm with ⟨⟨_, huntil⟩, _⟩
    rw [hu0] at huntil
    simp at huntil
    rcases huntil with h | h
    · exact absurd h hne
    · exact h
  · simp [matchesFilter, boundsOnly, tagEntryOk]
  · simp [matchesFilter, boundsOnly]

/-- Claim C6, witness: the amended statement at `created_at = 5` against the
bounds `since = 3`, `until = 7`. -/
theorem C6_witness : (3 : Int) ≤ evC6.created_at ∧ evC6.created_at ≤ (7 : Int) :=
  ⟨(C6_amended evC6 (boundsOnly (some 3) (some 7)) 3 7).1 (by decide) 3 rfl (by decide),
   (C6_amended evC6 (boundsOnly (some 3) (some 7)) 3 7).2.1 (by decide) 7 rfl (by decide)⟩

/-- Claim C7: evaluation of the code at the failing input.  The event
`evNoKind` has no `kind` field, yet it passes the validity check — the
source's `!event.kind === undefined` parses as `(!event.kind) === undefined`,
a boolean compared against `undefined`, which is always false — so the event
is accepted, acknowledged with `accepted = true`, and stored, where the
claim (and the spec's InvalidEvent class) requires a per-event rejection
with the store untouched. -/
theorem C7_code_behavior :
    evNoKind.kind = none ∧ invalidJs evNoKind = false ∧
    handleEventMsg ⟨[], []⟩ evNoKind =
      (⟨[("a", evNoKind)], []⟩, Msg.ok "a" true "", []) := by decide

/-- Claim C8: tag constraints are OR within one tag name and AND across
distinct names.  The event tagged `[['p',X],['e',Y]]` matches `#p:[X]`,
matches `#e:[Y]`, matches both together, and does not match `#p:[Z]` for
`Z ≠ X`; in general a single named tag constraint is satisfied exactly when
the event has a tag whose first element is the name and whose second element
lies in the value set. -/
theorem C8_tag_semantics (X Y Z : String) (hZX : Z ≠ X) :
    matchesFilter (evTagged X Y) (tagOnly [("#p", [X])]) = true ∧
    matchesFilter (evTagged X Y) (tagOnly [("#e", [Y])]) = true ∧
    matchesFilter (evTagged X Y) (tagOnly [("#p", [X]), ("#e", [Y])]) = true ∧
    matchesFilter (evTagged X Y) (tagOnly [("#p", [Z])]) = false ∧
    (∀ (e2 : Event) (k nm : String) (vs : List String), tagKeyName k = some nm →
      (matchesFilter e2 (tagOnly [(k, vs)]) = true ↔
        ∃ t ∈ e2.tags, t.head? = some nm ∧ ∃ v ∈ vs, t.get? 1 = some v)) := by
  have hp : tagKeyName "#p" = some "p" := by decide
  have he : tagKeyName "#e" = some "e" := by decide
  refine ⟨?_, ?_, ?_, ?_, ?_⟩
  · simp [matchesFilter, evTagged, tagOnly, tagEntryOk, hp, eventTagValues]
  · simp [matchesFilter, evTagged, tagOnly, tagEntryOk, he, eventTagValues]
  · simp [matchesFilter, evTagged, tagOnly, tagEntryOk, hp, he, eventTagValues]
  · simp [matchesFilter, evTagged, tagOnly, tagEntryOk, hp, eventTagValues, hZX]
  · intro e2 k nm vs hk
    rw [show matchesFilter e2 (tagOnly [(k, vs)]) = tagEntryOk e2 k vs by
      simp [matchesFilter, tagOnly]]
    exact tagEntryOk_eq_true_iff e2 k nm vs hk

/-- Claim C8, witness: the statement at `X = x`, `Y = y`, `Z = z`. -/
theorem C8_witness :
    matchesFilter (evTagged "x" "y") (tagOnly [("#p", ["x"])]) = true ∧
    matchesFilter (evTagged "x" "y") (tagOnly [("#p", ["z"])]) = false :=
  ⟨(C8_tag_semantics "x" "y" "z" (by decide)).1,
   (C8_tag_semantics "x" "y" "z" (by decide)).2.2.2.1⟩

/-- Claim C9: `clear()` empties the store — every query on the cleared
state, filtered or not, returns the empty sequence — and leaves the
subscription registry exactly as it was. -/
theorem C9_clear_scope (st : RelayState) :
    getEvents (clear st).events none = [] ∧
    (∀ f : Filter, getEvents (clear st).events (some f) = []) ∧
    (clear st).conns = st.conns :=
  ⟨rfl, fun _ => rfl, rfl⟩

/-- Claim C10: a tag-filter key that begins with `#` but names more than one
character (length over two, e.g. `#foo`) is never evaluated: its entry is
vacuously satisfied and removing it from a filter does not change
`matchesFilter` on any event, because only keys of exactly two characters
beginning with `#` are treated as tag constraints. -/
theorem C10_long_keys_ignored (e : Event) (ids authors : Option (List String))
    (kinds : Option (List Int)) (s u lim : Option Int)
    (k : String) (vs : List String) (ts : List (String × List String))
    (_hHash : k.data.head? = some '#') (hLen : 2 < k.data.length) :
    tagEntryOk e k vs = true ∧
    matchesFilter e ⟨ids, authors, kinds, s, u, lim, (k, vs) :: ts⟩ =
      matchesFilter e ⟨ids, authors, kinds, s, u, lim, ts⟩ := by
  have hn : tagKeyName k = none := tagKeyName_eq_none k (by omega)
  constructor
  · simp [tagEntryOk, hn]
  · simp [matchesFilter, tagEntryOk, hn]

/-- Claim C10, witness: the statement at the key `#foo`. -/
theorem C10_witness :
    tagEntryOk evC6 "#foo" ["v"] = true ∧
    matchesFilter evC6 ⟨none, none, none, none, none, none, [("#foo", ["v"])]⟩ =
      matchesFilter evC6 ⟨none, none, none, none, none, none, []⟩ :=
  C10_long_keys_ignored evC6 none none none none none none "#foo" ["v"] [] (by decide)
    (by decide)

end AgentTestKit
